import Mathlib

/-!
Verification of the Deep Q-Learning Snake agent (`src/ai/learning.py`).

The agent's collaborators (snake, food, board) are modelled through the
narrow interface the agent consumes: `head_position`, `direction`, `body`,
`get_next_head_position`, `has_collision` for the snake; `position` for the
food; `width`, `height`, `is_within_bounds` for the board.  Coordinates are
integers; the normalized state-vector entries are rationals.  The deep
learning framework (tensors, autograd, optimizer) is an external dependency
boundary: the network forward pass is an abstract function and the
optimizer step an abstract parameter update, with the agent recording how
many optimizer steps were performed.
-/

namespace SnakeDQN

/-- Collaborator contract of the external snake simulation: current head,
movement direction (one of "UP", "DOWN", "LEFT", "RIGHT"), body segments,
the proposed next head position, and the self-collision test. -/
structure Snake where
  head_position : ℤ × ℤ
  direction : String
  body : List (ℤ × ℤ)
  get_next_head_position : ℤ × ℤ
  has_collision : Bool

/-- Collaborator contract of the food: its position. -/
structure Food where
  position : ℤ × ℤ

/-- Collaborator contract of the board: dimensions and the bounds test. -/
structure Board where
  width : ℤ
  height : ℤ
  is_within_bounds : ℤ × ℤ → Bool

/-- Reward function, translated from `DeepQLearningModel.get_reward`
(learning.py lines 178-194): computed against the proposed next head
position; death check first, then food-eaten, then Manhattan-distance
comparison. -/
def get_reward (snake : Snake) (food : Food) (board : Board) : ℤ :=
  let fruit_x := food.position.1
  let fruit_y := food.position.2
  let next_head_x := snake.get_next_head_position.1
  let next_head_y := snake.get_next_head_position.2
  let dist_to_food_before :=
    |snake.head_position.1 - fruit_x| + |snake.head_position.2 - fruit_y|
  let dist_to_food_after :=
    |next_head_x - fruit_x| + |next_head_y - fruit_y|
  if ¬ board.is_within_bounds (next_head_x, next_head_y) ∨ snake.has_collision then
    -10
  else if (next_head_x, next_head_y) = (fruit_x, fruit_y) then
    10
  else if dist_to_food_after < dist_to_food_before then
    1
  else
    -1

/-- The four body-proximity indicator flags accumulated by the loop in
`get_state`. -/
structure BodyFlags where
  up : ℕ
  down : ℕ
  left : ℕ
  right : ℕ
deriving DecidableEq, Repr

/-- One iteration of the body-scanning loop of `get_state` (learning.py
lines 158-166): an if/elif chain setting at most one flag per segment. -/
def bodyFlagsStep (head_x head_y : ℤ) (f : BodyFlags) (segment : ℤ × ℤ) : BodyFlags :=
  if segment.1 = head_x ∧ segment.2 < head_y then { f with up := 1 }
  else if segment.1 = head_x ∧ segment.2 > head_y then { f with down := 1 }
  else if segment.2 = head_y ∧ segment.1 < head_x then { f with left := 1 }
  else if segment.2 = head_y ∧ segment.1 > head_x then { f with right := 1 }
  else f

/-- Feature extractor, translated from `DeepQLearningModel.get_state`
(learning.py lines 128-176): relative food position, direction indicators,
normalized wall distances, and body-proximity flags, in that order. -/
def get_state (snake : Snake) (food : Food) (board : Board) : List ℚ :=
  let head_x := snake.head_position.1
  let head_y := snake.head_position.2
  let fruit_x := food.position.1
  let fruit_y := food.position.2
  let rel_food_x : ℚ := ((fruit_x - head_x : ℤ) : ℚ) / (board.width : ℚ)
  let rel_food_y : ℚ := ((fruit_y - head_y : ℤ) : ℚ) / (board.height : ℚ)
  let dir_up : ℚ := if snake.direction = "UP" then 1 else 0
  let dir_down : ℚ := if snake.direction = "DOWN" then 1 else 0
  let dir_left : ℚ := if snake.direction = "LEFT" then 1 else 0
  let dir_right : ℚ := if snake.direction = "RIGHT" then 1 else 0
  let dist_wall_up : ℚ := (head_y : ℚ) / (board.height : ℚ)
  let dist_wall_down : ℚ := ((board.height - head_y : ℤ) : ℚ) / (board.height : ℚ)
  let dist_wall_left : ℚ := (head_x : ℚ) / (board.width : ℚ)
  let dist_wall_right : ℚ := ((board.width - head_x : ℤ) : ℚ) / (board.width : ℚ)
  let flags := snake.body.foldl (bodyFlagsStep head_x head_y) ⟨0, 0, 0, 0⟩
  [rel_food_x, rel_food_y,
   dir_up, dir_down, dir_left, dir_right,
   dist_wall_up, dist_wall_down, dist_wall_left, dist_wall_right,
   (flags.up : ℚ), (flags.down : ℚ), (flags.left : ℚ), (flags.right : ℚ)]

/-- One transition record (state, action, reward, next_state, done), as
stored by `remember`. -/
structure Transition where
  state : List ℚ
  action : ℕ
  reward : ℚ
  next_state : List ℚ
  done : Bool
deriving DecidableEq, Repr, Inhabited

/-- Maximum of the entries of a tensor viewed as a list, as computed by
`torch.max` over a nonempty network output (0 on the empty list, where the
framework would raise instead). -/
def tmax : List ℚ → ℚ
  | [] => 0
  | x :: xs => xs.foldl max x

/-- Index of the maximum entry, first occurrence on ties, as computed by
`torch.argmax` on a nonempty network output (0 on the empty list, where the
framework would raise instead). -/
def argmaxIdx : List ℚ → ℕ
  | [] => 0
  | [_] => 0
  | x :: y :: xs =>
    if x < (y :: xs).getD (argmaxIdx (y :: xs)) 0 then argmaxIdx (y :: xs) + 1 else 0

/-- Agent state of `DeepQLearningModel`, over an abstract network-parameter
type `P`.  The tensor framework is the dependency boundary: `optimizer_steps`
counts `optimizer.step()` calls and `training` mirrors the module's
train/eval mode; the network weights themselves live in `params`. -/
structure Agent (P : Type) where
  state_space_size : ℕ
  action_space_size : ℕ
  gamma : ℚ
  memory : List Transition
  max_memory : ℕ
  batch_size : ℕ
  params : P
  optimizer_steps : ℕ
  training : Bool
  epsilon : ℚ
  epsilon_min : ℚ
  epsilon_decay : ℚ

/-- Epsilon decay, translated from `DeepQLearningModel.decay_epsilon`
(learning.py lines 48-49): epsilon becomes max(epsilon * decay, minimum). -/
def decay_epsilon {P : Type} (a : Agent P) : Agent P :=
  { a with epsilon := max (a.epsilon * a.epsilon_decay) a.epsilon_min }

/-- Appending to a `deque(maxlen)`: the element goes to the right and the
buffer is trimmed from the left down to the capacity, evicting the oldest
entries.  Models the Python `collections.deque` used for the replay
memory. -/
def dequeAppend {α : Type} (maxlen : ℕ) (q : List α) (x : α) : List α :=
  (q ++ [x]).drop ((q ++ [x]).length - maxlen)

/-- Storing a transition, translated from `DeepQLearningModel.remember`
(learning.py lines 67-68): append to the bounded replay memory. -/
def remember {P : Type} (a : Agent P) (t : Transition) : Agent P :=
  { a with memory := dequeAppend a.max_memory a.memory t }

/-- Action selection, translated from `DeepQLearningModel.choose_action`
(learning.py lines 52-65).  The framework and standard-library randomness
is made explicit: `draw` is the value of `random.random()` (in [0,1)) and
`randAction` the value of `random.randint(0, n-1)`; `Q` is the network
forward pass.  With probability epsilon (draw < epsilon) the random action
is returned, otherwise the argmax of the Q-values over `state`. -/
def choose_action (Q : List ℚ → List ℚ) (state : List ℚ) (epsilon : ℚ)
    (draw : ℚ) (randAction : ℕ) : ℕ :=
  if draw < epsilon then randAction
  else argmaxIdx (Q state)

/-- Per-transition training target of `train_short_memory` (learning.py
lines 80-84): a copy of the current Q-values with only the entry at
`action` overwritten — by `reward` when terminal, else by
`reward + gamma * max(next Q-values)`. -/
def shortTarget (q_values next_q_values : List ℚ) (action : ℕ) (reward gamma : ℚ)
    (done : Bool) : List ℚ :=
  if done then q_values.set action reward
  else q_values.set action (reward + gamma * tmax next_q_values)

/-- Single-transition update, translated from
`DeepQLearningModel.train_short_memory` (learning.py lines 70-89).
`Q a.params` is the current network forward pass; the next-state pass is
detached (no gradient), the targets are built by `shortTarget`, and one
optimizer step is taken on the mean-squared-error loss between prediction
and target (`mseStep` abstracts `zero_grad`/`backward`/`step`). -/
def train_short_memory {P : Type} (Q : P → List ℚ → List ℚ)
    (mseStep : P → List ℚ → List ℚ → P) (a : Agent P)
    (state : List ℚ) (action : ℕ) (reward : ℚ) (next_state : List ℚ)
    (done : Bool) : Agent P :=
  let q_values := Q a.params state
  let next_q_values := Q a.params next_state
  let target := shortTarget q_values next_q_values action reward a.gamma done
  { a with params := mseStep a.params q_values target,
           optimizer_steps := a.optimizer_steps + 1 }

/-- Predicted Q-values of a batch (learning.py lines 104-105): for each
sampled transition, the network output at its recorded action
(`gather` along the action dimension). -/
def batchPred (Q : List ℚ → List ℚ) (mini_batch : List Transition) : List ℚ :=
  mini_batch.map (fun t => (Q t.state).getD t.action 0)

/-- Batch training targets (learning.py lines 107-110), computed with no
gradient tracking: reward + gamma * max(next Q-values) * (1 - terminal),
the boolean negation `~dones` becoming the zeroing multiplier. -/
def batchTarget (Q : List ℚ → List ℚ) (gamma : ℚ)
    (mini_batch : List Transition) : List ℚ :=
  mini_batch.map (fun t =>
    t.reward + gamma * tmax (Q t.next_state) * (if t.done then 0 else 1))

/-- Batched replay update, translated from
`DeepQLearningModel.train_long_memory` (learning.py lines 91-114).  If the
replay memory holds fewer than `batch_size` transitions the routine
returns at once, touching nothing.  Otherwise `random.sample` picks
`batch_size` distinct positions of the memory — modelled by the index list
`idxs`, whose distribution the Python library supplies — and one optimizer
step is taken on the mean-squared-error between `batchPred` and
`batchTarget` over the sampled batch. -/
def train_long_memory {P : Type} (Q : P → List ℚ → List ℚ)
    (mseStep : P → List ℚ → List ℚ → P) (a : Agent P)
    (idxs : List ℕ) : Agent P :=
  if a.memory.length < a.batch_size then a
  else
    let mini_batch := idxs.map (fun i => a.memory.getD i default)
    { a with params := mseStep a.params (batchPred (Q a.params) mini_batch)
                         (batchTarget (Q a.params) a.gamma mini_batch),
             optimizer_steps := a.optimizer_steps + 1 }

/-- Model persistence, translated from `DeepQLearningModel.load_model`
(learning.py lines 119-125).  The filesystem is the explicit map `fs` from
filenames to stored parameter blobs: when the file exists its parameters
are loaded and the network switched to evaluation mode, otherwise the
agent is untouched and an informational notice is returned. -/
def load_model {P : Type} (fs : String → Option P) (a : Agent P)
    (filename : String) : Agent P × String :=
  match fs filename with
  | some p => ({ a with params := p, training := false }, "Model loaded successfully.")
  | none => (a, "No saved model found. Starting fresh.")

/-! Concrete fixtures used to instantiate the theorems below at sample
inputs. -/

/-- Sample 10x10 board with the usual rectangular bounds test. -/
def testBoard : Board :=
  { width := 10, height := 10,
    is_within_bounds := fun p => decide (0 ≤ p.1 ∧ p.1 < 10 ∧ 0 ≤ p.2 ∧ p.2 < 10) }

/-- Sample food at (5, 5). -/
def testFood : Food := { position := (5, 5) }

/-- Sample live snake heading up from (3, 4). -/
def testSnake : Snake :=
  { head_position := (3, 4), direction := "UP", body := [(3, 4), (3, 5)],
    get_next_head_position := (3, 3), has_collision := false }

/-- Sample snake about to leave the board. -/
def testSnakeDead : Snake :=
  { head_position := (0, 0), direction := "LEFT", body := [(0, 0), (1, 0)],
    get_next_head_position := (-1, 0), has_collision := false }

/-- Sample freshly initialized agent over scalar parameters. -/
def testAgent : Agent ℚ :=
  { state_space_size := 14, action_space_size := 3, gamma := 99/100,
    memory := [], max_memory := 1, batch_size := 2, params := 0,
    optimizer_steps := 0, training := true,
    epsilon := 1, epsilon_min := 1/100, epsilon_decay := 995/1000 }

/-- Sample network forward pass over scalar parameters. -/
def testQ : ℚ → List ℚ → List ℚ := fun p _ => [p, p + 2, p + 1]

/-- Sample optimizer step over scalar parameters. -/
def testStep : ℚ → List ℚ → List ℚ → ℚ := fun p _ _ => p + 1

/-- Sample transitions. -/
def testTransitionA : Transition :=
  { state := [0], action := 0, reward := 1, next_state := [1], done := false }

/-- Second sample transition, terminal. -/
def testTransitionB : Transition :=
  { state := [1], action := 1, reward := 10, next_state := [2], done := true }

/-! Theorems. -/

/-- C1: `get_reward` evaluates four mutually exclusive checks in fixed
order against the proposed next head position: -10 when out of bounds or
self-colliding; otherwise +10 when the next position is the food;
otherwise +1 when the Manhattan distance to the food strictly decreases;
otherwise -1, ties included. -/
theorem C1_get_reward_cases (s : Snake) (f : Food) (b : Board) :
    (¬ b.is_within_bounds s.get_next_head_position = true ∨ s.has_collision = true →
      get_reward s f b = -10) ∧
    (b.is_within_bounds s.get_next_head_position = true → s.has_collision = false →
      s.get_next_head_position = f.position → get_reward s f b = 10) ∧
    (b.is_within_bounds s.get_next_head_position = true → s.has_collision = false →
      s.get_next_head_position ≠ f.position →
      |s.get_next_head_position.1 - f.position.1| + |s.get_next_head_position.2 - f.position.2| <
        |s.head_position.1 - f.position.1| + |s.head_position.2 - f.position.2| →
      get_reward s f b = 1) ∧
    (b.is_within_bounds s.get_next_head_position = true → s.has_collision = false →
      s.get_next_head_position ≠ f.position →
      ¬ (|s.get_next_head_position.1 - f.position.1| + |s.get_next_head_position.2 - f.position.2| <
        |s.head_position.1 - f.position.1| + |s.head_position.2 - f.position.2|) →
      get_reward s f b = -1) := by
  refine ⟨?_, ?_, ?_, ?_⟩ <;> intros <;>
    simp_all [get_reward, Prod.ext_iff] <;> split_ifs <;> omega

/-- Witness for C1 on the fixtures: the about-to-die snake earns -10. -/
theorem C1_get_reward_cases_witness :
    get_reward testSnakeDead testFood testBoard = -10 :=
  (C1_get_reward_cases testSnakeDead testFood testBoard).1 (by decide)

/-- C2: `get_state` returns exactly 14 values, in the fixed order relative
food position, direction indicators, wall distances, body flags; identical
inputs give identical outputs. -/
theorem C2_get_state_shape (s : Snake) (f : Food) (b : Board) :
    (get_state s f b).length = 14 ∧
    get_state s f b =
      [((f.position.1 - s.head_position.1 : ℤ) : ℚ) / (b.width : ℚ),
       ((f.position.2 - s.head_position.2 : ℤ) : ℚ) / (b.height : ℚ),
       if s.direction = "UP" then 1 else 0,
       if s.direction = "DOWN" then 1 else 0,
       if s.direction = "LEFT" then 1 else 0,
       if s.direction = "RIGHT" then 1 else 0,
       (s.head_position.2 : ℚ) / (b.height : ℚ),
       ((b.height - s.head_position.2 : ℤ) : ℚ) / (b.height : ℚ),
       (s.head_position.1 : ℚ) / (b.width : ℚ),
       ((b.width - s.head_position.1 : ℤ) : ℚ) / (b.width : ℚ),
       ((s.body.foldl (bodyFlagsStep s.head_position.1 s.head_position.2) ⟨0, 0, 0, 0⟩).up : ℚ),
       ((s.body.foldl (bodyFlagsStep s.head_position.1 s.head_position.2) ⟨0, 0, 0, 0⟩).down : ℚ),
       ((s.body.foldl (bodyFlagsStep s.head_position.1 s.head_position.2) ⟨0, 0, 0, 0⟩).left : ℚ),
       ((s.body.foldl (bodyFlagsStep s.head_position.1 s.head_position.2) ⟨0, 0, 0, 0⟩).right : ℚ)] ∧
    (∀ s2 f2 b2, s = s2 → f = f2 → b = b2 → get_state s f b = get_state s2 f2 b2) := by
  refine ⟨rfl, rfl, ?_⟩
  rintro s2 f2 b2 rfl rfl rfl
  rfl

/-- Witness for C2 on the fixtures. -/
theorem C2_get_state_shape_witness :
    (get_state testSnake testFood testBoard).length = 14 :=
  (C2_get_state_shape testSnake testFood testBoard).1

/-- C7: with fewer than `batch_size` stored transitions,
`train_long_memory` returns at once and the whole agent — parameters
included — is unchanged. -/
theorem C7_train_long_memory_noop {P : Type} (Q : P → List ℚ → List ℚ)
    (mseStep : P → List ℚ → List ℚ → P) (a : Agent P)
    (h : a.memory.length < a.batch_size) (idxs : List ℕ) :
    train_long_memory Q mseStep a idxs = a := by
  simp [train_long_memory, h]

/-- Witness for C7 on the fixtures: the fresh agent has 0 < 2 stored
transitions, so training is a no-op. -/
theorem C7_train_long_memory_noop_witness :
    train_long_memory testQ testStep testAgent [0, 1] = testAgent :=
  C7_train_long_memory_noop testQ testStep testAgent (by decide) [0, 1]

/-- C9: with no file at the given path, `load_model` leaves every agent
field unchanged and reports the informational notice; only when the file
exists are the parameters loaded and the network switched to evaluation
mode. -/
theorem C9_load_model_missing {P : Type} (fs : String → Option P)
    (a : Agent P) (filename : String) :
    (fs filename = none →
      load_model fs a filename = (a, "No saved model found. Starting fresh.")) ∧
    (∀ p, fs filename = some p →
      load_model fs a filename =
        ({ a with params := p, training := false }, "Model loaded successfully.")) := by
  constructor
  · intro h
    simp [load_model, h]
  · intro p h
    simp [load_model, h]

/-- Witness for C9 on the fixtures: an empty filesystem leaves the fresh
agent untouched. -/
theorem C9_load_model_missing_witness :
    load_model (fun _ => (none : Option ℚ)) testAgent "model.pth" =
      (testAgent, "No saved model found. Starting fresh.") :=
  (C9_load_model_missing (fun _ => none) testAgent "model.pth").1 rfl

/-- Iterating `decay_epsilon` never changes the decay rate or the floor. -/
lemma iterate_decay_fields {P : Type} (a : Agent P) (n : ℕ) :
    (decay_epsilon^[n] a).epsilon_decay = a.epsilon_decay ∧
    (decay_epsilon^[n] a).epsilon_min = a.epsilon_min := by
  induction n with
  | zero => exact ⟨rfl, rfl⟩
  | succ n ih =>
    rw [Function.iterate_succ_apply']
    exact ⟨ih.1, ih.2⟩

/-- Once at or above the floor, iterated decay stays at or above it. -/
lemma epsilon_min_le_iterate {P : Type} (a : Agent P)
    (hme : a.epsilon_min ≤ a.epsilon) (n : ℕ) :
    a.epsilon_min ≤ (decay_epsilon^[n] a).epsilon := by
  induction n with
  | zero => simpa
  | succ n ih =>
    rw [Function.iterate_succ_apply']
    have hx : (decay_epsilon^[n] a).epsilon_min = a.epsilon_min :=
      (iterate_decay_fields a n).2
    simp only [decay_epsilon]
    rw [hx]
    exact le_max_right _ _

/-- C6: every `decay_epsilon` call sets epsilon to
max(epsilon * decay, epsilon_min); under the constructor's parameter
regime (decay in [0,1], 0 ≤ floor ≤ starting epsilon) the sequence of
epsilon values is non-increasing and never below the floor. -/
theorem C6_decay_epsilon_monotone {P : Type} (a : Agent P)
    (hd0 : 0 ≤ a.epsilon_decay) (hd1 : a.epsilon_decay ≤ 1)
    (hm0 : 0 ≤ a.epsilon_min) (hme : a.epsilon_min ≤ a.epsilon) :
    (∀ n, (decay_epsilon^[n + 1] a).epsilon =
      max ((decay_epsilon^[n] a).epsilon * a.epsilon_decay) a.epsilon_min) ∧
    (∀ n, (decay_epsilon^[n + 1] a).epsilon ≤ (decay_epsilon^[n] a).epsilon) ∧
    (∀ n, a.epsilon_min ≤ (decay_epsilon^[n] a).epsilon) := by
  have hinv := epsilon_min_le_iterate a hme
  refine ⟨?_, ?_, hinv⟩
  · intro n
    rw [Function.iterate_succ_apply']
    simp only [decay_epsilon]
    rw [(iterate_decay_fields a n).1, (iterate_decay_fields a n).2]
  · intro n
    rw [Function.iterate_succ_apply']
    have h0 : 0 ≤ (decay_epsilon^[n] a).epsilon := le_trans hm0 (hinv n)
    simp only [decay_epsilon]
    apply max_le
    · rw [(iterate_decay_fields a n).1]
      calc (decay_epsilon^[n] a).epsilon * a.epsilon_decay
          ≤ (decay_epsilon^[n] a).epsilon * 1 := by
            exact mul_le_mul_of_nonneg_left hd1 h0
        _ = (decay_epsilon^[n] a).epsilon := mul_one _
    · rw [(iterate_decay_fields a n).2]
      exact hinv n

/-- Witness for C6 on the fixtures: one decay step from the fresh agent
does not increase epsilon and stays above the floor. -/
theorem C6_decay_epsilon_monotone_witness :
    (decay_epsilon^[1] testAgent).epsilon ≤ (decay_epsilon^[0] testAgent).epsilon ∧
    testAgent.epsilon_min ≤ (decay_epsilon^[1] testAgent).epsilon :=
  ⟨(C6_decay_epsilon_monotone testAgent (by norm_num [testAgent])
      (by norm_num [testAgent]) (by norm_num [testAgent])
      (by norm_num [testAgent])).2.1 0,
   (C6_decay_epsilon_monotone testAgent (by norm_num [testAgent])
      (by norm_num [testAgent]) (by norm_num [testAgent])
      (by norm_num [testAgent])).2.2 1⟩

/-- Folding the bounded append from an empty buffer keeps exactly the last
`cap` elements of the insertion sequence. -/
lemma foldl_dequeAppend_nil {α : Type} (cap : ℕ) (ts : List α) :
    ts.foldl (dequeAppend cap) [] = ts.drop (ts.length - cap) := by
  induction ts using List.reverseRecOn with
  | nil => simp
  | append_singleton l x ih =>
    rw [List.foldl_append, List.foldl_cons, List.foldl_nil, ih]
    have hd : l.drop (l.length - cap) ++ [x] = (l ++ [x]).drop (l.length - cap) :=
      (List.drop_append_of_le_length (by omega)).symm
    simp only [dequeAppend]
    rw [hd, List.drop_drop]
    congr 1
    simp only [List.length_append, List.length_drop, List.length_cons, List.length_nil]
    omega

/-- A sequence of `remember` calls acts on the memory field alone, as the
fold of the bounded append over the starting memory. -/
lemma memory_foldl_remember {P : Type} (a : Agent P) (ts : List Transition) :
    (ts.foldl remember a).memory = ts.foldl (dequeAppend a.max_memory) a.memory := by
  induction ts generalizing a with
  | nil => rfl
  | cons t ts ih =>
    rw [List.foldl_cons, List.foldl_cons]
    exact ih (remember a t)

/-- C5: from an empty replay memory, no sequence of `remember` calls grows
the memory past its capacity, and after capacity + 1 insertions the
first-inserted transition has been evicted while the last-inserted one is
present: insertion is FIFO. -/
theorem C5_replay_fifo {P : Type} (a : Agent P) (t0 : Transition)
    (rest : List Transition) (hcap : 0 < a.max_memory) (hempty : a.memory = [])
    (hlen : rest.length = a.max_memory) (hfresh : t0 ∉ rest) :
    (∀ ts : List Transition, ((ts.foldl remember a).memory).length ≤ a.max_memory) ∧
    ((t0 :: rest).foldl remember a).memory = rest ∧
    t0 ∉ ((t0 :: rest).foldl remember a).memory ∧
    (∀ tn, rest.getLast? = some tn → tn ∈ ((t0 :: rest).foldl remember a).memory) := by
  have hmem : ∀ ts : List Transition,
      (ts.foldl remember a).memory = ts.drop (ts.length - a.max_memory) := by
    intro ts
    rw [memory_foldl_remember, hempty, foldl_dequeAppend_nil]
  have hdrop : ((t0 :: rest).foldl remember a).memory = rest := by
    rw [hmem]
    have h1 : (t0 :: rest).length - a.max_memory = 1 := by
      simp only [List.length_cons, hlen]
      omega
    rw [h1]
    rfl
  refine ⟨?_, hdrop, ?_, ?_⟩
  · intro ts
    rw [hmem]
    simp only [List.length_drop]
    omega
  · rw [hdrop]
    exact hfresh
  · intro tn h
    rw [hdrop]
    obtain ⟨hne, rfl⟩ :=
      List.mem_getLast?_eq_getLast (show tn ∈ rest.getLast? from by simp [Option.mem_def, h])
    exact List.getLast_mem hne

/-- Witness for C5 on the fixtures: capacity 1, two distinct insertions;
the first is evicted, the second is present. -/
theorem C5_replay_fifo_witness :
    testTransitionA ∉ ([testTransitionA, testTransitionB].foldl remember testAgent).memory ∧
    testTransitionB ∈ ([testTransitionA, testTransitionB].foldl remember testAgent).memory :=
  ⟨(C5_replay_fifo testAgent testTransitionA [testTransitionB]
      (by decide) rfl rfl (by decide)).2.2.1,
   (C5_replay_fifo testAgent testTransitionA [testTransitionB]
      (by decide) rfl rfl (by decide)).2.2.2 testTransitionB rfl⟩

/-- Effect of one loop iteration on the up flag: the if/elif chain sets it
exactly on a segment in the head's column strictly above it. -/
lemma bodyFlagsStep_up (hx hy : ℤ) (f : BodyFlags) (seg : ℤ × ℤ) :
    (bodyFlagsStep hx hy f seg).up =
      if seg.1 = hx ∧ seg.2 < hy then 1 else f.up := by
  unfold bodyFlagsStep
  split_ifs <;> first | rfl | omega

/-- Effect of one loop iteration on the down flag. -/
lemma bodyFlagsStep_down (hx hy : ℤ) (f : BodyFlags) (seg : ℤ × ℤ) :
    (bodyFlagsStep hx hy f seg).down =
      if seg.1 = hx ∧ seg.2 > hy then 1 else f.down := by
  unfold bodyFlagsStep
  split_ifs <;> first | rfl | omega

/-- Effect of one loop iteration on the left flag. -/
lemma bodyFlagsStep_left (hx hy : ℤ) (f : BodyFlags) (seg : ℤ × ℤ) :
    (bodyFlagsStep hx hy f seg).left =
      if seg.2 = hy ∧ seg.1 < hx then 1 else f.left := by
  unfold bodyFlagsStep
  split_ifs <;> first | rfl | omega

/-- Effect of one loop iteration on the right flag. -/
lemma bodyFlagsStep_right (hx hy : ℤ) (f : BodyFlags) (seg : ℤ × ℤ) :
    (bodyFlagsStep hx hy f seg).right =
      if seg.2 = hy ∧ seg.1 > hx then 1 else f.right := by
  unfold bodyFlagsStep
  split_ifs <;> first | rfl | omega

/-- The folded up flag is set exactly when some body segment lies in the
head's column strictly above it. -/
lemma foldl_bodyFlags_up (hx hy : ℤ) (body : List (ℤ × ℤ)) (f : BodyFlags) :
    (body.foldl (bodyFlagsStep hx hy) f).up =
      if ∃ seg ∈ body, seg.1 = hx ∧ seg.2 < hy then 1 else f.up := by
  induction body generalizing f with
  | nil => simp
  | cons seg body ih =>
    rw [List.foldl_cons, ih, bodyFlagsStep_up]
    by_cases h1 : seg.1 = hx ∧ seg.2 < hy <;>
      by_cases h2 : ∃ s ∈ body, s.1 = hx ∧ s.2 < hy <;>
      simp [h1, h2]

/-- The folded down flag is set exactly when some body segment lies in the
head's column strictly below it. -/
lemma foldl_bodyFlags_down (hx hy : ℤ) (body : List (ℤ × ℤ)) (f : BodyFlags) :
    (body.foldl (bodyFlagsStep hx hy) f).down =
      if ∃ seg ∈ body, seg.1 = hx ∧ seg.2 > hy then 1 else f.down := by
  induction body generalizing f with
  | nil => simp
  | cons seg body ih =>
    rw [List.foldl_cons, ih, bodyFlagsStep_down]
    by_cases h1 : seg.1 = hx ∧ seg.2 > hy <;>
      by_cases h2 : ∃ s ∈ body, s.1 = hx ∧ s.2 > hy <;>
      simp [h1, h2]

/-- The folded left flag is set exactly when some body segment lies in the
head's row strictly to its left. -/
lemma foldl_bodyFlags_left (hx hy : ℤ) (body : List (ℤ × ℤ)) (f : BodyFlags) :
    (body.foldl (bodyFlagsStep hx hy) f).left =
      if ∃ seg ∈ body, seg.2 = hy ∧ seg.1 < hx then 1 else f.left := by
  induction body generalizing f with
  | nil => simp
  | cons seg body ih =>
    rw [List.foldl_cons, ih, bodyFlagsStep_left]
    by_cases h1 : seg.2 = hy ∧ seg.1 < hx <;>
      by_cases h2 : ∃ s ∈ body, s.2 = hy ∧ s.1 < hx <;>
      simp [h1, h2]

/-- The folded right flag is set exactly when some body segment lies in the
head's row strictly to its right. -/
lemma foldl_bodyFlags_right (hx hy : ℤ) (body : List (ℤ × ℤ)) (f : BodyFlags) :
    (body.foldl (bodyFlagsStep hx hy) f).right =
      if ∃ seg ∈ body, seg.2 = hy ∧ seg.1 > hx then 1 else f.right := by
  induction body generalizing f with
  | nil => simp
  | cons seg body ih =>
    rw [List.foldl_cons, ih, bodyFlagsStep_right]
    by_cases h1 : seg.2 = hy ∧ seg.1 > hx <;>
      by_cases h2 : ∃ s ∈ body, s.2 = hy ∧ s.1 > hx <;>
      simp [h1, h2]

/-- C10: each body-proximity flag of the state vector is 1 exactly when
some body segment shares the head's column (respectively row) strictly on
the corresponding side, at any distance, and is 0 otherwise — so a segment
diagonal to the head, or at the head's own position, sets no flag. -/
theorem C10_body_flags (s : Snake) (f : Food) (b : Board) :
    (get_state s f b).getD 10 0 =
      (if ∃ seg ∈ s.body, seg.1 = s.head_position.1 ∧ seg.2 < s.head_position.2
        then 1 else 0) ∧
    (get_state s f b).getD 11 0 =
      (if ∃ seg ∈ s.body, seg.1 = s.head_position.1 ∧ seg.2 > s.head_position.2
        then 1 else 0) ∧
    (get_state s f b).getD 12 0 =
      (if ∃ seg ∈ s.body, seg.2 = s.head_position.2 ∧ seg.1 < s.head_position.1
        then 1 else 0) ∧
    (get_state s f b).getD 13 0 =
      (if ∃ seg ∈ s.body, seg.2 = s.head_position.2 ∧ seg.1 > s.head_position.1
        then 1 else 0) := by
  refine ⟨?_, ?_, ?_, ?_⟩
  · simp only [get_state, List.getD, List.get?, Option.getD_some]
    rw [foldl_bodyFlags_up]
    split_ifs <;> simp
  · simp only [get_state, List.getD, List.get?, Option.getD_some]
    rw [foldl_bodyFlags_down]
    split_ifs <;> simp
  · simp only [get_state, List.getD, List.get?, Option.getD_some]
    rw [foldl_bodyFlags_left]
    split_ifs <;> simp
  · simp only [get_state, List.getD, List.get?, Option.getD_some]
    rw [foldl_bodyFlags_right]
    split_ifs <;> simp

/-- The argmax index stays inside the list. -/
lemma argmaxIdx_lt_length (l : List ℚ) (h : l ≠ []) : argmaxIdx l < l.length := by
  induction l with
  | nil => exact absurd rfl h
  | cons a tl ih =>
    cases tl with
    | nil => simp [argmaxIdx]
    | cons b tl2 =>
      simp only [argmaxIdx]
      split_ifs
      · have := ih (List.cons_ne_nil b tl2)
        simpa using Nat.succ_lt_succ this
      · simp

/-- The entry at the argmax index dominates every entry of the list. -/
lemma le_getD_argmaxIdx (l : List ℚ) : ∀ x ∈ l, x ≤ l.getD (argmaxIdx l) 0 := by
  induction l with
  | nil => simp
  | cons a tl ih =>
    cases tl with
    | nil =>
      intro x hx
      simp only [List.mem_singleton] at hx
      simp [argmaxIdx, hx]
    | cons b tl2 =>
      intro x hx
      simp only [argmaxIdx]
      split_ifs with hlt
      · have hg : (a :: b :: tl2).getD (argmaxIdx (b :: tl2) + 1) 0 =
            (b :: tl2).getD (argmaxIdx (b :: tl2)) 0 := rfl
        rw [hg]
        rcases List.mem_cons.mp hx with rfl | hx2
        · exact le_of_lt hlt
        · exact ih x hx2
      · have hg : (a :: b :: tl2).getD 0 0 = a := rfl
        rw [hg]
        rcases List.mem_cons.mp hx with rfl | hx2
        · exact le_refl _
        · exact le_trans (ih x hx2) (not_lt.mp hlt)

/-- C8: with epsilon 0 the exploration branch is dead — `random.random()`
is nonnegative, so the comparison draw < 0 fails — and `choose_action`
returns the argmax of the network output over the state, the same value on
every call whatever the random draws were. -/
theorem C8_choose_action_greedy (Q : List ℚ → List ℚ) (state : List ℚ)
    (draw draw2 : ℚ) (r1 r2 : ℕ) (h1 : 0 ≤ draw) (h2 : 0 ≤ draw2)
    (hne : Q state ≠ []) :
    choose_action Q state 0 draw r1 = argmaxIdx (Q state) ∧
    choose_action Q state 0 draw r1 = choose_action Q state 0 draw2 r2 ∧
    argmaxIdx (Q state) < (Q state).length ∧
    (∀ x ∈ Q state, x ≤ (Q state).getD (argmaxIdx (Q state)) 0) := by
  have e1 : choose_action Q state 0 draw r1 = argmaxIdx (Q state) := by
    simp [choose_action, not_lt.mpr h1]
  have e2 : choose_action Q state 0 draw2 r2 = argmaxIdx (Q state) := by
    simp [choose_action, not_lt.mpr h2]
  exact ⟨e1, e1.trans e2.symm, argmaxIdx_lt_length _ hne, le_getD_argmaxIdx _⟩

/-- Witness for C8 on a concrete three-action network output. -/
theorem C8_choose_action_greedy_witness :
    choose_action (fun _ => ([1, 3, 2] : List ℚ)) [0] 0 0 5 =
      argmaxIdx ((fun _ => ([1, 3, 2] : List ℚ)) [0]) :=
  (C8_choose_action_greedy (fun _ => [1, 3, 2]) [0] 0 (1/2) 5 7 le_rfl
    (by norm_num) (by simp)).1

/-- C4: one `train_short_memory` call takes exactly one optimizer step on
the mean-squared error between the current Q-values of the state and a
target that copies those Q-values, overwriting only the entry at the
recorded action — with the reward when terminal, else with
reward + gamma * max of the detached next-state Q-values. -/
theorem C4_train_short_memory {P : Type} (Q : P → List ℚ → List ℚ)
    (mseStep : P → List ℚ → List ℚ → P) (a : Agent P) (state : List ℚ)
    (action : ℕ) (reward : ℚ) (next_state : List ℚ) (done : Bool)
    (hact : action < (Q a.params state).length) :
    train_short_memory Q mseStep a state action reward next_state done =
      { a with params := mseStep a.params (Q a.params state)
                 (shortTarget (Q a.params state) (Q a.params next_state)
                   action reward a.gamma done),
               optimizer_steps := a.optimizer_steps + 1 } ∧
    (shortTarget (Q a.params state) (Q a.params next_state)
        action reward a.gamma done).get? action =
      some (if done then reward else reward + a.gamma * tmax (Q a.params next_state)) ∧
    (∀ i, i ≠ action →
      (shortTarget (Q a.params state) (Q a.params next_state)
          action reward a.gamma done).get? i = (Q a.params state).get? i) ∧
    (shortTarget (Q a.params state) (Q a.params next_state)
        action reward a.gamma done).length = (Q a.params state).length := by
  refine ⟨rfl, ?_, ?_, ?_⟩
  · cases done <;>
      simp [shortTarget, List.getElem?_set_eq_of_lt _ hact]
  · intro i hi
    cases done <;>
      simp [shortTarget, List.getElem?_set_ne (Ne.symm hi)]
  · cases done <;> simp [shortTarget]

/-- Witness for C4 on the fixtures: a non-terminal transition trains with
one optimizer step toward the bootstrapped target. -/
theorem C4_train_short_memory_witness :
    train_short_memory testQ testStep testAgent [0] 0 1 [1] false =
      { testAgent with
          params := testStep testAgent.params (testQ testAgent.params [0])
            (shortTarget (testQ testAgent.params [0]) (testQ testAgent.params [1])
              0 1 testAgent.gamma false),
          optimizer_steps := testAgent.optimizer_steps + 1 } :=
  (C4_train_short_memory testQ testStep testAgent [0] 0 1 [1] false (by decide)).1

/-- C3: with at least `batch_size` stored transitions, `train_long_memory`
draws a distinct-index sample of `batch_size` transitions from the memory
(`random.sample`), predicts each sampled transition's Q-value at its
recorded action, computes the detached target
reward + gamma * max(next Q-values) * (1 - terminal) — so a terminal
transition's target is its bare reward — and takes exactly one optimizer
step on the batch mean-squared error. -/
theorem C3_train_long_memory {P : Type} (Q : P → List ℚ → List ℚ)
    (mseStep : P → List ℚ → List ℚ → P) (a : Agent P) (idxs : List ℕ)
    (hlen : a.batch_size ≤ a.memory.length)
    (hsize : idxs.length = a.batch_size)
    (hnodup : idxs.Nodup)
    (hrange : ∀ i ∈ idxs, i < a.memory.length) :
    train_long_memory Q mseStep a idxs =
      { a with params := mseStep a.params
                 (batchPred (Q a.params) (idxs.map (fun i => a.memory.getD i default)))
                 (batchTarget (Q a.params) a.gamma
                   (idxs.map (fun i => a.memory.getD i default))),
               optimizer_steps := a.optimizer_steps + 1 } ∧
    (idxs.map (fun i => a.memory.getD i default)).length = a.batch_size ∧
    (∀ t ∈ idxs.map (fun i => a.memory.getD i default), t ∈ a.memory) ∧
    (∀ i t, (idxs.map (fun j => a.memory.getD j default)).get? i = some t →
      (batchPred (Q a.params) (idxs.map (fun j => a.memory.getD j default))).get? i =
        some ((Q a.params t.state).getD t.action 0) ∧
      (batchTarget (Q a.params) a.gamma
          (idxs.map (fun j => a.memory.getD j default))).get? i =
        some (t.reward + a.gamma * tmax (Q a.params t.next_state) *
          (if t.done then 0 else 1)) ∧
      (t.done = true →
        t.reward + a.gamma * tmax (Q a.params t.next_state) *
          (if t.done then 0 else 1) = t.reward)) := by
  refine ⟨?_, ?_, ?_, ?_⟩
  · simp [train_long_memory, not_lt.mpr hlen]
  · simp [hsize]
  · intro t ht
    obtain ⟨i, hi, rfl⟩ := List.mem_map.mp ht
    rw [List.getD_eq_getElem _ _ (hrange i hi)]
    exact List.getElem_mem _
  · intro i t ht
    refine ⟨?_, ?_, ?_⟩
    · simp only [batchPred, List.get?_map, ht]
      rfl
    · simp only [batchTarget, List.get?_map, ht]
      rfl
    · intro hd
      simp [hd]

/-- Witness for C3 on the fixtures: a two-transition memory, batch size
two, sample indices 0 and 1; the resulting mini-batch has the batch
size. -/
theorem C3_train_long_memory_witness :
    (([0, 1] : List ℕ).map
        (fun i => ({ testAgent with
          memory := [testTransitionA, testTransitionB] } : Agent ℚ).memory.getD i default)).length =
      ({ testAgent with memory := [testTransitionA, testTransitionB] } : Agent ℚ).batch_size :=
  (C3_train_long_memory testQ testStep
    { testAgent with memory := [testTransitionA, testTransitionB] } [0, 1]
    (by decide) (by decide) (by decide) (by decide)).2.1

end SnakeDQN
